import Mathlib

/-!
Verification development for the Heimdall sandbox supervisor.

The definitions below are a shallow embedding of the TypeScript sources:
  * `src/config/constants.ts` (environment parsing, limits),
  * `src/core/pyodide-manager.ts` (path validation, quota checks, the
    file tools `writeFile`/`readFile`/`listFiles`/`deleteFile`, and the
    host/virtual synchronization they use),
  * `src/core/secure-fs.ts` (symlink-target validation),
  * `src/core/pyodide-worker.ts` (per-request execution protocol),
  * `src/utils/async-lock.ts` vs. the unlocked `writeFile` path
    (modelled as an interleaving semantics).

String paths are manipulated with executable re-implementations of the
Node `path.posix` primitives the sources call (`normalize`, `dirname`,
`join`, `resolve`), written over `List Char` so that concrete inputs
evaluate by `decide`/`rfl`.
-/

namespace Heimdall

/-! ## Node `path.posix` primitives -/

/-- Prefix test on strings, the semantics of JavaScript `String.startsWith`. -/
def strStartsWith (s pre : String) : Bool :=
  pre.data.isPrefixOf s.data

/-- Suffix test on strings, the semantics of JavaScript `String.endsWith`. -/
def strEndsWith (s suf : String) : Bool :=
  suf.data.isSuffixOf s.data

/-- Drop the first `n` characters, the semantics of `String.slice(n)` on
ASCII paths. -/
def strDrop (s : String) (n : Nat) : String :=
  String.mk (s.data.drop n)

/-- Split a character list on `'/'`, keeping empty segments, as
`String.split('/')` does. -/
def splitOnSlash : List Char → List (List Char)
  | [] => [[]]
  | '/' :: rest => [] :: splitOnSlash rest
  | c :: rest =>
    match splitOnSlash rest with
    | s :: ss => (c :: s) :: ss
    | [] => [[c]]

/-- Path segments of a string (separator `'/'`, empty segments kept). -/
def splitSegs (p : String) : List String :=
  (splitOnSlash p.data).map String.mk

/-- Segment normalization for an absolute path: `.` and empty segments are
dropped and `..` pops the previous segment (or is dropped at the root),
exactly Node's `normalizeString` with `allowAboveRoot = false`. -/
def normAbsSegs (segs : List String) : List String :=
  segs.foldl
    (fun acc s =>
      if s = "" ∨ s = "." then acc
      else if s = ".." then acc.dropLast
      else acc ++ [s]) []

/-- Segment normalization for a relative path: leading `..` segments are
kept, Node's `normalizeString` with `allowAboveRoot = true`. -/
def normRelSegs (segs : List String) : List String :=
  segs.foldl
    (fun acc s =>
      if s = "" ∨ s = "." then acc
      else if s = ".." then
        (if acc = [] ∨ acc.getLast? = some ".." then acc ++ [".."] else acc.dropLast)
      else acc ++ [s]) []

/-- `path.posix.normalize`: resolves `.`/`..`, collapses separators, keeps a
trailing separator, returns `"."` for an empty result on relative input and
`"/"` on absolute input. -/
def posixNormalize (p : String) : String :=
  if p = "" then "."
  else
    let isAbs := strStartsWith p "/"
    let trailing := strEndsWith p "/"
    let segs := if isAbs then normAbsSegs (splitSegs p) else normRelSegs (splitSegs p)
    let body := String.intercalate "/" segs
    if body = "" then
      (if isAbs then "/" else if trailing then "./" else ".")
    else
      (if isAbs then "/" ++ body else body) ++ (if trailing then "/" else "")

/-- `path.posix.dirname` on the normalized paths this development feeds it:
drop the last segment, answering `"/"` (absolute) or `"."` (relative) when
nothing is left. -/
def posixDirname (p : String) : String :=
  let isAbs := strStartsWith p "/"
  let segs := (splitSegs p).filter (· ≠ "")
  match segs with
  | [] => if isAbs then "/" else "."
  | _ =>
    let front := segs.dropLast
    if front = [] then (if isAbs then "/" else ".")
    else (if isAbs then "/" else "") ++ String.intercalate "/" front

/-- `path.join` of two parts (the sources only join non-degenerate parts):
concatenate with a separator and normalize. -/
def pathJoin (a b : String) : String :=
  if a = "" ∧ b = "" then "."
  else if a = "" then posixNormalize b
  else if b = "" then posixNormalize a
  else posixNormalize (a ++ "/" ++ b)

/-- Remove a single trailing separator (except from `"/"` itself); Emscripten
path lookup ignores trailing separators, and `path.resolve` strips them. -/
def stripSlash (p : String) : String :=
  if p ≠ "/" ∧ strEndsWith p "/" then String.mk p.data.dropLast else p

/-- `path.resolve(base, rel)` for an absolute `base` and relative `rel`:
join, normalize, drop the trailing separator. -/
def nodeResolveRel (base rel : String) : String :=
  stripSlash (posixNormalize (base ++ "/" ++ rel))

/-- Substring occurrence test on character lists (JavaScript
`String.includes`). -/
def listHasInfix (sub : List Char) : List Char → Bool
  | [] => sub.isEmpty
  | c :: rest => sub.isPrefixOf (c :: rest) || listHasInfix sub rest

/-- JavaScript `s.includes("..")`. -/
def hasDotDot (s : String) : Bool :=
  listHasInfix "..".data s.data

/-! ## Configuration (`src/config/constants.ts`) -/

/-- Virtual filesystem root inside the Pyodide engine
(`VIRTUAL_WORKSPACE`). -/
def VIRTUAL_WORKSPACE : String := "/workspace"

/-- Host workspace root (`WORKSPACE_DIR`), an absolute host path fixed at
startup; modelled by a representative absolute path. -/
def WORKSPACE_DIR : String := "/app/workspace"

/-- Runtime limits parsed at startup (`MAX_FILE_SIZE`,
`MAX_WORKSPACE_SIZE`, `PYTHON_EXECUTION_TIMEOUT_MS`). -/
structure Config where
  maxFileSize : Nat
  maxWorkspaceSize : Nat
  timeoutMs : Nat
deriving DecidableEq, Repr

/-- The built-in defaults: 10 MiB, 100 MiB, 5000 ms. -/
def defaultConfig : Config :=
  { maxFileSize := 10485760, maxWorkspaceSize := 104857600, timeoutMs := 5000 }

/-- JavaScript whitespace skipped by `parseInt`. -/
def isJsSpace (c : Char) : Bool :=
  c = ' ' ∨ c = '\t' ∨ c = '\n' ∨ c = '\r' ∨ c = '\x0b' ∨ c = '\x0c'

/-- Value of a leading run of decimal digits; `none` when there is none. -/
def leadingDigitsVal (l : List Char) : Option Nat :=
  let ds := l.takeWhile Char.isDigit
  if ds.isEmpty then none
  else some (ds.foldl (fun a c => a * 10 + (c.toNat - 48)) 0)

/-- JavaScript `parseInt(s, 10)`: skip whitespace, optional sign, longest
digit run; `NaN` (here `none`) when no digit follows. -/
def jsParseInt (s : String) : Option Int :=
  match s.data.dropWhile isJsSpace with
  | '-' :: rest => (leadingDigitsVal rest).map (fun n => -(n : Int))
  | '+' :: rest => (leadingDigitsVal rest).map (fun n => (n : Int))
  | rest => (leadingDigitsVal rest).map (fun n => (n : Int))

/-- `parseSizeLimit(envValue, defaultValue, name)`: the returned limit and
whether the invalid-value warning was logged. An absent or empty value
takes the `!envValue` early return; otherwise `parseInt` failures and
non-positive results fall back (with a warning). -/
def parseSizeLimit (envValue : Option String) (defaultValue : Nat) : Nat × Bool :=
  match envValue with
  | none => (defaultValue, false)
  | some s =>
    if s = "" then (defaultValue, false)
    else
      match jsParseInt s with
      | none => (defaultValue, true)
      | some v => if v ≤ 0 then (defaultValue, true) else (v.toNat, false)

/-- `parseTimeoutMs` has the same structure as `parseSizeLimit`. -/
def parseTimeoutMs (envValue : Option String) (defaultValue : Nat) : Nat × Bool :=
  match envValue with
  | none => (defaultValue, false)
  | some s =>
    if s = "" then (defaultValue, false)
    else
      match jsParseInt s with
      | none => (defaultValue, true)
      | some v => if v ≤ 0 then (defaultValue, true) else (v.toNat, false)

/-- `MAX_FILE_SIZE` as a function of `HEIMDALL_MAX_FILE_SIZE`. -/
def maxFileSizeFromEnv (e : Option String) : Nat × Bool :=
  parseSizeLimit e 10485760

/-- `MAX_WORKSPACE_SIZE` as a function of `HEIMDALL_MAX_WORKSPACE_SIZE`. -/
def maxWorkspaceSizeFromEnv (e : Option String) : Nat × Bool :=
  parseSizeLimit e 104857600

/-- `PYTHON_EXECUTION_TIMEOUT_MS` as a function of
`HEIMDALL_PYTHON_EXECUTION_TIMEOUT_MS`. -/
def timeoutMsFromEnv (e : Option String) : Nat × Bool :=
  parseTimeoutMs e 5000

/-! ## Path validation (`PyodideManager.validatePath`) -/

/-- Error kinds surfaced by the manager operations; the source throws
`Error` objects whose messages identify these cases. -/
inductive MErr where
  | pathTraversal
  | dotDotRemains
  | eisdir
  | enoent
  | enotdir
  | enotempty
  | fileTooLarge
  | workspaceFull
deriving DecidableEq, Repr

deriving instance DecidableEq for Except

/-- The `normalized` value inside `PyodideManager.validatePath`: prefix a
relative path with the virtual root and `path.posix.normalize` it. -/
def normalizeInput (filePath : String) : String :=
  posixNormalize
    (if strStartsWith filePath "/" then filePath else VIRTUAL_WORKSPACE ++ "/" ++ filePath)

/-- `PyodideManager.validatePath`: prefix relative paths with the virtual
root, `path.posix.normalize`, require the result to stay at or below
`/workspace`, and reject any remaining `..`. -/
def validatePath (filePath : String) : Except MErr String :=
  if ¬ (strStartsWith (normalizeInput filePath) (VIRTUAL_WORKSPACE ++ "/"))
      ∧ normalizeInput filePath ≠ VIRTUAL_WORKSPACE then
    .error .pathTraversal
  else if hasDotDot (normalizeInput filePath) then
    .error .dotDotRemains
  else
    .ok (normalizeInput filePath)

/-- `PyodideManager.virtualToHostPath`. -/
def virtualToHostPath (virtualPath : String) : String :=
  if virtualPath = VIRTUAL_WORKSPACE then WORKSPACE_DIR
  else if strStartsWith virtualPath (VIRTUAL_WORKSPACE ++ "/") then
    pathJoin WORKSPACE_DIR (strDrop virtualPath (VIRTUAL_WORKSPACE.length + 1))
  else
    pathJoin WORKSPACE_DIR virtualPath

/-! ## Filesystem state models

The Emscripten virtual FS (`py.FS`) and the host workspace subtree are
modelled as association lists from absolute path strings to file contents,
plus a list of directory paths. Emscripten's path lookup ignores trailing
separators, hence the `stripSlash` at every operation boundary. -/

/-- Association-list read. -/
def getAssoc : List (String × String) → String → Option String
  | [], _ => none
  | (a, b) :: t, k => if a = k then some b else getAssoc t k

/-- Association-list write (replace the first binding or append). -/
def setAssoc : List (String × String) → String → String → List (String × String)
  | [], k, v => [(k, v)]
  | (a, b) :: t, k, v => if a = k then (k, v) :: t else (a, b) :: setAssoc t k v

/-- All the directory paths a `mkdirTree`/recursive `mkdir` of `p` creates:
the absolute prefixes of `p`, shortest first. -/
def prefixPaths (p : String) : List String :=
  let segs := (splitSegs p).filter (· ≠ "")
  (List.range segs.length).map (fun i => "/" ++ String.intercalate "/" (segs.take (i + 1)))

/-- Is `p` strictly below `base`? -/
def isUnder (base p : String) : Bool :=
  strStartsWith p (base ++ "/")

/-- The Pyodide in-memory filesystem. -/
structure VFS where
  dirs : List String
  files : List (String × String)
deriving DecidableEq, Repr

/-- The virtual FS right after `initialize` ran `FS.mkdirTree(VIRTUAL_WORKSPACE)`. -/
def VFS.init : VFS := ⟨["/", "/workspace"], []⟩

/-- `FS.mkdirTree`: create every component of `p`; fails when a file
occupies one of them. -/
def VFS.mkdirTree (v : VFS) (p : String) : Except MErr VFS :=
  if ∀ q ∈ prefixPaths (stripSlash p), getAssoc v.files q = none then
    .ok { v with dirs := prefixPaths (stripSlash p) ++ v.dirs }
  else
    .error .enotdir

/-- `FS.mkdirTree` wrapped in the sync code's catch-and-log-only handler. -/
def VFS.mkdirTreeQuiet (v : VFS) (p : String) : VFS :=
  match v.mkdirTree p with
  | .ok v' => v'
  | .error _ => v

/-- `FS.writeFile`: fails on a directory (`EISDIR`) or a missing parent
directory (`ENOENT`), otherwise creates or overwrites the file. -/
def VFS.writeFile (v : VFS) (p c : String) : Except MErr VFS :=
  if stripSlash p ∈ v.dirs then .error .eisdir
  else if posixDirname (stripSlash p) ∈ v.dirs then
    .ok { v with files := setAssoc v.files (stripSlash p) c }
  else .error .enoent

/-- `FS.readFile` with `utf8` encoding. -/
def VFS.readFile (v : VFS) (p : String) : Except MErr String :=
  match getAssoc v.files (stripSlash p) with
  | some c => .ok c
  | none => if stripSlash p ∈ v.dirs then .error .eisdir else .error .enoent

/-- Result of a successful `stat`. -/
inductive FStat where
  | file (size : Nat)
  | dir
deriving DecidableEq, Repr

/-- `FS.stat`, returning `none` where the source's call throws. -/
def VFS.stat (v : VFS) (p : String) : Option FStat :=
  match getAssoc v.files (stripSlash p) with
  | some c => some (.file c.utf8ByteSize)
  | none => if stripSlash p ∈ v.dirs then some .dir else none

/-- `FS.rmdir`: only an existing empty directory can be removed. -/
def VFS.rmdir (v : VFS) (p : String) : Except MErr VFS :=
  if stripSlash p ∈ v.dirs then
    if (∃ d ∈ v.dirs, isUnder (stripSlash p) d = true)
        ∨ (∃ kv ∈ v.files, isUnder (stripSlash p) kv.1 = true) then
      .error .enotempty
    else
      .ok { v with dirs := v.dirs.filter (· ≠ stripSlash p) }
  else
    .error .enotdir

/-- `FS.unlink`. -/
def VFS.unlink (v : VFS) (p : String) : Except MErr VFS :=
  match getAssoc v.files (stripSlash p) with
  | some _ => .ok { v with files := v.files.filter (fun kv => kv.1 ≠ stripSlash p) }
  | none => .error .enoent

/-- The immediate-child name of `p` below `base`, when there is one. -/
def childName (base p : String) : Option String :=
  if isUnder base p then
    let rest := strDrop p (base.length + 1)
    if rest = "" ∨ rest.data.contains '/' then none else some rest
  else none

/-- `FS.readdir` minus the `.`/`..` entries the callers filter out. -/
def VFS.readdir (v : VFS) (p : String) : Except MErr (List String) :=
  if stripSlash p ∈ v.dirs then
    .ok ((v.dirs.filterMap (childName (stripSlash p))
      ++ v.files.filterMap (fun kv => childName (stripSlash p) kv.1)).dedup)
  else
    .error .enotdir

/-- The host workspace subtree. -/
structure HFS where
  dirs : List String
  files : List (String × String)
deriving DecidableEq, Repr

/-- The host workspace right after startup created `WORKSPACE_DIR`. -/
def HFS.init : HFS := ⟨[WORKSPACE_DIR], []⟩

/-- Sum of the byte sizes of an association list of files. -/
def sumSizes : List (String × String) → Nat
  | [] => 0
  | kv :: t => kv.2.utf8ByteSize + sumSizes t

/-- `PyodideManager.getWorkspaceSize`: walk the host workspace tree and sum
the file sizes. -/
def workspaceSize (h : HFS) : Nat := sumSizes h.files

/-- `fs.promises.mkdir(p, recursive)`: fails when a file occupies a
component. -/
def HFS.mkdirRec (h : HFS) (p : String) : Except MErr HFS :=
  if ∀ q ∈ prefixPaths (stripSlash p), getAssoc h.files q = none then
    .ok { h with dirs := prefixPaths (stripSlash p) ++ h.dirs }
  else
    .error .enotdir

/-- `fs.promises.writeFile`: fails on a directory, otherwise creates or
overwrites. -/
def HFS.writeFile (h : HFS) (p c : String) : Except MErr HFS :=
  if stripSlash p ∈ h.dirs then .error .eisdir
  else .ok { h with files := setAssoc h.files (stripSlash p) c }

/-- Host `stat` (with the `access` probe folded in): `none` when absent. -/
def HFS.stat (h : HFS) (p : String) : Option FStat :=
  match getAssoc h.files (stripSlash p) with
  | some c => some (.file c.utf8ByteSize)
  | none => if stripSlash p ∈ h.dirs then some .dir else none

/-- The best-effort host deletion inside `deleteFile`'s inner try/catch:
unlink a file, rmdir an empty directory, and swallow every failure. -/
def HFS.deleteQuiet (h : HFS) (p : String) : HFS :=
  match getAssoc h.files (stripSlash p) with
  | some _ => { h with files := h.files.filter (fun kv => kv.1 ≠ stripSlash p) }
  | none =>
    if stripSlash p ∈ h.dirs then
      if (∃ d ∈ h.dirs, isUnder (stripSlash p) d = true)
          ∨ (∃ kv ∈ h.files, isUnder (stripSlash p) kv.1 = true) then h
      else { h with dirs := h.dirs.filter (· ≠ stripSlash p) }
    else h

/-- Joint manager state: the virtual FS plus the host workspace. -/
structure MState where
  v : VFS
  h : HFS
deriving DecidableEq, Repr

/-- Manager state right after `initialize`. -/
def MState.init : MState := ⟨VFS.init, HFS.init⟩

/-! ## Host/virtual synchronization (`PyodideManager`)

`syncHostPathToVirtual` and `syncVirtualPathToHost` are recursive walks;
over the association-list state they are embedded by their net effect: the
non-directory branch verbatim, and the directory branch as a fold over
every entry of the source subtree (exactly the set of paths the recursion
visits). -/

/-- `PyodideManager.syncHostPathToVirtual`. -/
def syncHostPathToVirtualM (st : MState) (hostPath virtualPath : String) : Except MErr MState :=
  match st.h.stat hostPath with
  | none => .ok st
  | some (.file _) =>
    match getAssoc st.h.files (stripSlash hostPath) with
    | some c =>
      match
        (if posixDirname virtualPath ≠ "" ∧ posixDirname virtualPath ≠ "/"
            ∧ hasDotDot (posixDirname virtualPath) = false then
          st.v.mkdirTreeQuiet (posixDirname virtualPath)
        else st.v).writeFile virtualPath c
      with
      | .error e => .error e
      | .ok v => .ok { st with v := v }
    | none => .ok st
  | some .dir =>
    match
      (st.h.files.filter (fun kv => isUnder (stripSlash hostPath) kv.1)).foldlM
        (fun v kv =>
          VFS.writeFile v
            (stripSlash virtualPath ++ strDrop kv.1 (stripSlash hostPath).length) kv.2)
        ((st.h.dirs.filter (fun d => isUnder (stripSlash hostPath) d)).foldl
          (fun v d =>
            VFS.mkdirTreeQuiet v
              (stripSlash virtualPath ++ strDrop d (stripSlash hostPath).length)) st.v)
    with
    | .error e => .error e
    | .ok v => .ok { st with v := v }

/-- `PyodideManager.syncVirtualPathToHost`. -/
def syncVirtualPathToHostM (st : MState) (virtualPath hostPath : String) : Except MErr MState :=
  match st.v.stat virtualPath with
  | none => .ok st
  | some (.file _) =>
    match st.h.mkdirRec (posixDirname hostPath) with
    | .error e => .error e
    | .ok h =>
      match getAssoc st.v.files (stripSlash virtualPath) with
      | some c =>
        match h.writeFile hostPath c with
        | .error e => .error e
        | .ok h2 => .ok { st with h := h2 }
      | none => .ok { st with h := h }
  | some .dir =>
    match st.h.mkdirRec hostPath with
    | .error e => .error e
    | .ok h =>
      match
        (st.v.dirs.filter (fun d => isUnder (stripSlash virtualPath) d)).foldlM
          (fun h d =>
            HFS.mkdirRec h
              (stripSlash hostPath ++ strDrop d (stripSlash virtualPath).length)) h
      with
      | .error e => .error e
      | .ok h =>
        match
          (st.v.files.filter (fun kv => isUnder (stripSlash virtualPath) kv.1)).foldlM
            (fun h kv =>
              (match
                HFS.mkdirRec h
                  (posixDirname
                    (stripSlash hostPath ++ strDrop kv.1 (stripSlash virtualPath).length))
              with
              | .error e => .error e
              | .ok h =>
                HFS.writeFile h
                  (stripSlash hostPath ++ strDrop kv.1 (stripSlash virtualPath).length) kv.2 :
                Except MErr HFS)) h
        with
        | .error e => .error e
        | .ok h => .ok { st with h := h }

/-! ## File tools (`PyodideManager.writeFile` / `readFile` / `listFiles` /
`deleteFile`) -/

/-- Result of `write_file`. -/
structure FileWriteResult where
  success : Bool
  error : Option MErr
deriving DecidableEq, Repr

/-- Result of `read_file`. -/
structure FileReadResult where
  success : Bool
  content : Option String
  error : Option MErr
deriving DecidableEq, Repr

/-- Result of `list_files`: entries are `(name, isDirectory, size)`. -/
structure FileListResult where
  success : Bool
  files : List (String × Bool × Nat)
  error : Option MErr
deriving DecidableEq, Repr

/-- Result of `delete_file`. -/
structure FileDeleteResult where
  success : Bool
  error : Option MErr
deriving DecidableEq, Repr

/-- `PyodideManager.writeFile`: validate the path, reject an over-large
content, reject when the measured workspace size plus the content size
exceeds the cap, create the parent directory, write the virtual file, and
sync it to the host. Failures return the result of the enclosing catch. -/
def writeFileM (cfg : Config) (st : MState) (filePath content : String) :
    FileWriteResult × MState :=
  match validatePath filePath with
  | .error e => (⟨false, some e⟩, st)
  | .ok fullPath =>
    if content.utf8ByteSize > cfg.maxFileSize then (⟨false, some .fileTooLarge⟩, st)
    else if workspaceSize st.h + content.utf8ByteSize > cfg.maxWorkspaceSize then
      (⟨false, some .workspaceFull⟩, st)
    else
      match
        (if posixDirname fullPath ≠ "" ∧ posixDirname fullPath ≠ "/"
            ∧ hasDotDot (posixDirname fullPath) = false then
          st.v.mkdirTree (posixDirname fullPath)
        else .ok st.v)
      with
      | .error e => (⟨false, some e⟩, st)
      | .ok v1 =>
        match v1.writeFile fullPath content with
        | .error e => (⟨false, some e⟩, st)
        | .ok v2 =>
          match syncVirtualPathToHostM { st with v := v2 } fullPath
              (virtualToHostPath fullPath) with
          | .error e => (⟨false, some e⟩, { st with v := v2 })
          | .ok st' => (⟨true, none⟩, st')

/-- `PyodideManager.readFile`: validate, sync the host copy in, read the
virtual file as UTF-8. -/
def readFileM (st : MState) (filePath : String) : FileReadResult × MState :=
  match validatePath filePath with
  | .error e => (⟨false, none, some e⟩, st)
  | .ok fullPath =>
    match syncHostPathToVirtualM st (virtualToHostPath fullPath) fullPath with
    | .error e => (⟨false, none, some e⟩, st)
    | .ok st' =>
      match st'.v.readFile fullPath with
      | .ok c => (⟨true, some c, none⟩, st')
      | .error e => (⟨false, none, some e⟩, st')

/-- `PyodideManager.listFiles`: an empty argument lists the workspace root
without validation; anything else is validated. Then sync in, read the
directory, and stat every entry. -/
def listFilesM (st : MState) (dirPath : String) : FileListResult × MState :=
  match (if dirPath = "" then .ok VIRTUAL_WORKSPACE else validatePath dirPath) with
  | .error e => (⟨false, [], some e⟩, st)
  | .ok fullPath =>
    match syncHostPathToVirtualM st (virtualToHostPath fullPath) fullPath with
    | .error e => (⟨false, [], some e⟩, st)
    | .ok st' =>
      match st'.v.readdir fullPath with
      | .error e => (⟨false, [], some e⟩, st')
      | .ok items =>
        let entries := items.map (fun item =>
          match st'.v.stat (stripSlash fullPath ++ "/" ++ item) with
          | some (.file n) => (item, false, n)
          | some .dir => (item, true, 0)
          | none => (item, false, 0))
        (⟨true, entries, none⟩, st')

/-- `PyodideManager.deleteFile`: validate, sync in, re-check the host path
sits under the workspace, remove from the virtual FS (rmdir for a
directory, unlink for a file), then best-effort remove from the host. -/
def deleteFileM (st : MState) (filePath : String) : FileDeleteResult × MState :=
  match validatePath filePath with
  | .error e => (⟨false, some e⟩, st)
  | .ok fullPath =>
    match syncHostPathToVirtualM st (virtualToHostPath fullPath) fullPath with
    | .error e => (⟨false, some e⟩, st)
    | .ok st1 =>
      if ¬ strStartsWith (posixNormalize (virtualToHostPath fullPath))
          (posixNormalize WORKSPACE_DIR) then
        (⟨false, some .pathTraversal⟩, st1)
      else
        match st1.v.stat fullPath with
        | none => (⟨false, some .enoent⟩, st1)
        | some .dir =>
          match st1.v.rmdir fullPath with
          | .error e => (⟨false, some e⟩, st1)
          | .ok v2 => (⟨true, none⟩, ⟨v2, HFS.deleteQuiet st1.h (virtualToHostPath fullPath)⟩)
        | some (.file _) =>
          match st1.v.unlink fullPath with
          | .error e => (⟨false, some e⟩, st1)
          | .ok v2 => (⟨true, none⟩, ⟨v2, HFS.deleteQuiet st1.h (virtualToHostPath fullPath)⟩)

/-! ## Concurrent `write_file` interleavings

`writeFile` measures the workspace size (`await checkWorkspaceSize`) and
later performs the write (`await syncVirtualPathToHost`) in separate event
loop turns, with no lock between them: the `AsyncLock` of
`src/utils/async-lock.ts` is referenced only by its own unit test. Each
in-flight call is therefore a two-step program — (1) measure, (2) check
and commit — and a schedule picks which call runs its next step. -/

/-- One in-flight `write_file` call: its target path and content size. -/
structure WriteOp where
  path : String
  size : Nat
deriving DecidableEq, Repr

/-- Progress of one in-flight call. -/
inductive OpPhase where
  | start
  | measured (current : Nat)
  | done (success : Bool)
deriving DecidableEq, Repr

/-- Host files seen by the race, path with byte size. -/
def raceTotal (host : List (String × Nat)) : Nat :=
  host.foldl (fun a kv => a + kv.2) 0

/-- Association write for the race host. -/
def setAssocNat : List (String × Nat) → String → Nat → List (String × Nat)
  | [], k, n => [(k, n)]
  | (a, b) :: t, k, n => if a = k then (k, n) :: t else (a, b) :: setAssocNat t k n

/-- Shared state of the concurrent calls. -/
structure RaceState where
  host : List (String × Nat)
  phases : List OpPhase
deriving DecidableEq, Repr

/-- Run one step of call `i`: from `start`, apply the `MAX_FILE_SIZE`
precheck and record the measured workspace size; from `measured`, apply
the `MAX_WORKSPACE_SIZE` check against that stale measurement and commit
the write on success. -/
def stepOp (cfg : Config) (ops : List WriteOp) (st : RaceState) (i : Nat) : RaceState :=
  match st.phases.get? i, ops.get? i with
  | some ph, some op =>
    match ph with
    | .start =>
      if op.size > cfg.maxFileSize then
        { st with phases := st.phases.set i (.done false) }
      else
        { st with phases := st.phases.set i (.measured (raceTotal st.host)) }
    | .measured current =>
      if current + op.size > cfg.maxWorkspaceSize then
        { st with phases := st.phases.set i (.done false) }
      else
        { host := setAssocNat st.host op.path op.size,
          phases := st.phases.set i (.done true) }
    | .done _ => st
  | _, _ => st

/-- Run a schedule of steps over an initially empty workspace. -/
def runSched (cfg : Config) (ops : List WriteOp) (sched : List Nat) : RaceState :=
  sched.foldl (stepOp cfg ops) ⟨[], ops.map (fun _ => .start)⟩

/-! ## Python execution supervision (`PyodideManager.executeCode`)

The dispatch resolves on the first of: a worker result message, a worker
error message, or the `PYTHON_EXECUTION_TIMEOUT_MS` timer (armed only when
the timeout is positive). The model takes that first event as a parameter
and mirrors the handler the source runs for it. Worker spawning
(`initializeWorker`) is modelled as succeeding. -/

/-- Worker bookkeeping of the manager (`worker`, `workerReady`). -/
structure SupState where
  workerPresent : Bool
  workerReady : Bool
deriving DecidableEq, Repr

/-- Result shape of `execute_python`. -/
structure ExecutionResult where
  success : Bool
  stdout : String
  stderr : String
  result : Option String
  error : Option String
deriving DecidableEq, Repr

/-- The first event that settles a pending `executeCode` promise. -/
inductive ExecEvent where
  | workerResult (success : Bool) (stdout stderr : String)
      (result : Option String) (error : Option String)
  | workerError (msg : String)
  | timerFires
deriving DecidableEq, Repr

/-- The timeout message `executeCode` resolves with. -/
def timeoutErrorMsg (t : Nat) : String :=
  "Execution timed out after " ++ toString t ++ "ms"

/-- Everything observable about one `executeCode` call. -/
structure ExecOutcome where
  res : ExecutionResult
  state : SupState
  spawnedFreshWorker : Bool
deriving DecidableEq, Repr

/-- `PyodideManager.executeCode`: spawn a worker when none is ready, then
resolve on the first event. A worker message resolves with its payload and
leaves the worker alive; the timer resolves with the timeout error and
`terminateWorker` marks the worker absent. -/
def executeCodeS (cfg : Config) (st : SupState) (code : String) (packages : List String)
    (ev : ExecEvent) : ExecOutcome :=
  let spawned : Bool := !(st.workerPresent && st.workerReady)
  let _ := code
  let _ := packages
  match ev with
  | .workerResult s o e r err => ⟨⟨s, o, e, r, err⟩, ⟨true, true⟩, spawned⟩
  | .workerError m => ⟨⟨false, "", "", none, some m⟩, ⟨true, true⟩, spawned⟩
  | .timerFires =>
    ⟨⟨false, "", "", none, some (timeoutErrorMsg cfg.timeoutMs)⟩, ⟨false, false⟩, spawned⟩

/-! ## SecureFs (`src/core/secure-fs.ts`)

Symlink resolution is abstracted by a `realpath` oracle
`rp : String → Option String`, `none` standing for `ENOENT`. -/

/-- Errors SecureFs throws before delegating to the backing filesystem. -/
inductive SecErr where
  | symlinkSecurity
deriving DecidableEq, Repr

/-- The confinement roots captured by the `SecureFs` constructor. -/
structure SFS where
  root : String
  resolvedRoot : String
deriving DecidableEq, Repr

/-- `SecureFs.toRealPath`. -/
def SFS.toRealPath (sfs : SFS) (virtualPath : String) : String :=
  pathJoin sfs.root (posixNormalize virtualPath)

/-- `SecureFs.isWithinWorkspace`. -/
def SFS.isWithinWorkspace (sfs : SFS) (realPath : String) : Bool :=
  let nr := posixNormalize realPath
  let nroot := posixNormalize sfs.resolvedRoot
  nr = nroot ∨ strStartsWith nr (nroot ++ "/")

/-- One pass of `validateParentPath`'s while-loop, on fuel; the loop walks
`dirname` upward, returning at the first existing ancestor and rejecting
when its real path escapes. -/
def goParent (sfs : SFS) (rp : String → Option String) : Nat → String → Except SecErr Unit
  | 0, _ => .ok ()
  | fuel + 1, current =>
    if current = sfs.root ∨ posixDirname current = current then .ok ()
    else
      let c := posixDirname current
      match rp c with
      | some real =>
        if sfs.isWithinWorkspace real then .ok () else .error .symlinkSecurity
      | none => goParent sfs rp fuel c

/-- `SecureFs.validateParentPath` (the fuel bounds the `dirname` chain). -/
def validateParentPathS (sfs : SFS) (rp : String → Option String) (hostPath : String) :
    Except SecErr Unit :=
  goParent sfs rp ((splitSegs hostPath).length + 2) hostPath

/-- `SecureFs.validatePath`: realpath the host path and require confinement;
on `ENOENT` fall back to validating the nearest existing ancestor. -/
def validatePathS (sfs : SFS) (rp : String → Option String) (virtualPath : String) :
    Except SecErr Unit :=
  let hostPath := sfs.toRealPath virtualPath
  match rp hostPath with
  | some real =>
    if sfs.isWithinWorkspace real then .ok () else .error .symlinkSecurity
  | none => validateParentPathS sfs rp hostPath

/-- The `absoluteTarget` of `SecureFs.validateSymlinkTarget`: the target
taken verbatim when absolute, otherwise `path.resolve`d against the link's
parent directory. -/
def absoluteSymlinkTarget (sfs : SFS) (target linkPath : String) : String :=
  if strStartsWith target "/" then target
  else nodeResolveRel (posixDirname (sfs.toRealPath linkPath)) target

/-- `SecureFs.validateSymlinkTarget`: require the resolved target string to
be confined, and when the target exists require its real path to be
confined as well. -/
def validateSymlinkTarget (sfs : SFS) (rp : String → Option String)
    (target linkPath : String) : Except SecErr Unit :=
  if ¬ sfs.isWithinWorkspace (absoluteSymlinkTarget sfs target linkPath) then
    .error .symlinkSecurity
  else
    match rp (absoluteSymlinkTarget sfs target linkPath) with
    | some realTarget =>
      if ¬ sfs.isWithinWorkspace realTarget then .error .symlinkSecurity else .ok ()
    | none => .ok ()

/-- `SecureFs.symlink`: validate the link location, validate the target,
and only then delegate to `inner.symlink`; `.ok` therefore means the link
was created and `.error` that it was not. -/
def symlinkS (sfs : SFS) (rp : String → Option String) (target linkPath : String) :
    Except SecErr Unit :=
  match validatePathS sfs rp linkPath with
  | .error e => .error e
  | .ok _ => validateSymlinkTarget sfs rp target linkPath

/-- The target as claim C5 describes its resolution: taken verbatim when
absolute, resolved against the link's parent when relative, and
realpath-resolved when it exists. -/
def resolvedSymlinkTarget (sfs : SFS) (rp : String → Option String)
    (target linkPath : String) : String :=
  (rp (absoluteSymlinkTarget sfs target linkPath)).getD
    (absoluteSymlinkTarget sfs target linkPath)

/-! ## The worker's per-request protocol (`src/core/pyodide-worker.ts`)

The worker's `syncVirtualToHost` walks the virtual tree; the tree is
modelled as a mutual inductive, and host paths as segment lists relative
to the filesystem root (`path.join(hostPath, item)` appends one segment).
`okPath` abstracts `validateHostPathWithSymlinkResolution`, `true` meaning
the path passes. -/

mutual
/-- A node of the virtual filesystem tree. -/
inductive VNode where
  | file (content : String)
  | dir (entries : VEntries)
deriving DecidableEq, Repr

/-- The named entries of a directory, in `readdir` order. -/
inductive VEntries where
  | nil
  | cons (name : String) (node : VNode) (rest : VEntries)
deriving DecidableEq, Repr
end

/-- Entry names of a directory listing. -/
def VEntries.names : VEntries → List String
  | .nil => []
  | .cons n _ rest => n :: rest.names

mutual
/-- Content of the file at a relative segment path, when there is one. -/
def VNode.lookup : VNode → List String → Option String
  | .file c, [] => some c
  | .file _, _ :: _ => none
  | .dir _, [] => none
  | .dir es, n :: rest => VEntries.lookup es n rest

/-- Lookup inside a directory listing. -/
def VEntries.lookup : VEntries → String → List String → Option String
  | .nil, _, _ => none
  | .cons name node rest, n, segs =>
    if name = n then node.lookup segs else VEntries.lookup rest n segs
end

mutual
/-- Well-formedness of a tree: every directory lists distinct names. -/
inductive VNode.WF : VNode → Prop where
  | file (c : String) : VNode.WF (.file c)
  | dir (es : VEntries) : es.names.Nodup → VEntries.WF es → VNode.WF (.dir es)

/-- Well-formedness of a directory listing. -/
inductive VEntries.WF : VEntries → Prop where
  | nil : VEntries.WF .nil
  | cons (name : String) (node : VNode) (rest : VEntries) :
      VNode.WF node → VEntries.WF rest → VEntries.WF (.cons name node rest)
end

/-- Host filesystem as the worker sees it: files and directories keyed by
segment paths. -/
structure WHost where
  files : List (List String × String)
  dirs : List (List String)
deriving DecidableEq, Repr

/-- Read a host file. -/
def wGet : List (List String × String) → List String → Option String
  | [], _ => none
  | (a, b) :: t, k => if a = k then some b else wGet t k

/-- Write a host file. -/
def wSet : List (List String × String) → List String → String → List (List String × String)
  | [], k, c => [(k, c)]
  | (a, b) :: t, k, c => if a = k then (k, c) :: t else (a, b) :: wSet t k c

/-- `fs.promises.mkdir(p, recursive)` on segment paths: fails when a file
occupies a component. -/
def WHost.mkdirRec (h : WHost) (k : List String) : Except String WHost :=
  if ((List.range k.length).map (fun i => k.take (i + 1))).all
      (fun q => (wGet h.files q).isNone) then
    .ok { h with dirs := (List.range k.length).map (fun i => k.take (i + 1)) ++ h.dirs }
  else
    .error "ENOTDIR"

/-- `fs.promises.writeFile` on segment paths. -/
def WHost.writeFile (h : WHost) (k : List String) (c : String) : Except String WHost :=
  if k ∈ h.dirs then .error "EISDIR"
  else .ok { h with files := wSet h.files k c }

mutual
/-- The worker's `syncVirtualToHost`: validate the host path, then write a
file (after creating its parent and re-validating) or create a directory
and recurse over its entries. -/
def syncNodeToHost (okPath : List String → Bool) :
    VNode → List String → WHost → Except String WHost
  | .file c, hostPath, h =>
    if okPath hostPath then
      match h.mkdirRec hostPath.dropLast with
      | .error e => .error e
      | .ok h1 =>
        if okPath hostPath then h1.writeFile hostPath c
        else .error "security violation"
    else .error "security violation"
  | .dir es, hostPath, h =>
    if okPath hostPath then
      match h.mkdirRec hostPath with
      | .error e => .error e
      | .ok h1 =>
        if okPath hostPath then syncEntriesToHost okPath es hostPath h1
        else .error "security violation"
    else .error "security violation"

/-- Recursion over the entries of a directory. -/
def syncEntriesToHost (okPath : List String → Bool) :
    VEntries → List String → WHost → Except String WHost
  | .nil, _, h => .ok h
  | .cons name node rest, hostPath, h =>
    match syncNodeToHost okPath node (hostPath ++ [name]) h with
    | .error e => .error e
    | .ok h1 => syncEntriesToHost okPath rest hostPath h1
end

/-- The result message the worker posts back. -/
structure WorkerResult where
  success : Bool
  stdout : String
  stderr : String
  result : Option String
  error : Option String
deriving DecidableEq, Repr

/-- Outcome of `runPythonAsync` on the user's code. -/
inductive RunOutcome where
  | normal (value : Option String)
  | raised (msg : String)
deriving DecidableEq, Repr

/-- The worker's `executeCode` from the point the user code finished: both
the success branch and the catch branch run `syncVirtualToHost` on the
whole virtual workspace before the result message is built, so the message
is a function of the synced host state. `vfs` is the virtual workspace
tree at that moment and `workDir` the host workspace as segments. -/
def workerExecuteTail (okPath : List String → Bool) (vfs : VNode)
    (workDir : List String) (outcome : RunOutcome) (stdout stderr : String)
    (h : WHost) : Except String (WorkerResult × WHost) :=
  match outcome with
  | .normal value =>
    match syncNodeToHost okPath vfs workDir h with
    | .error e => .error e
    | .ok h' => .ok (⟨true, stdout, stderr, value, none⟩, h')
  | .raised msg =>
    match syncNodeToHost okPath vfs workDir h with
    | .error e => .error e
    | .ok h' => .ok (⟨false, stdout, stderr, none, some msg⟩, h')

/-! ## Association-list lemmas -/

theorem getAssoc_setAssoc_self : ∀ (l : List (String × String)) (k v : String),
    getAssoc (setAssoc l k v) k = some v
  | [], k, v => by simp [setAssoc, getAssoc]
  | (a, b) :: t, k, v => by
    by_cases h : a = k
    · simp [setAssoc, getAssoc, h]
    · simp [setAssoc, getAssoc, h, getAssoc_setAssoc_self t k v]

theorem getAssoc_setAssoc_ne : ∀ (l : List (String × String)) (k v k' : String),
    k' ≠ k → getAssoc (setAssoc l k v) k' = getAssoc l k'
  | [], k, v, k', hk => by
    have hne : ¬ k = k' := fun h => hk (Eq.symm h)
    simp only [setAssoc, getAssoc, if_neg hne]
  | (a, b) :: t, k, v, k', hk => by
    by_cases h : a = k
    · subst h
      have hne : ¬ a = k' := fun hek => hk (Eq.symm hek)
      simp only [setAssoc, if_pos rfl, getAssoc, if_neg hne]
    · simp only [setAssoc, if_neg h, getAssoc]
      by_cases h' : a = k'
      · simp only [if_pos h']
      · simp only [if_neg h', getAssoc_setAssoc_ne t k v k' hk]

theorem sumSizes_setAssoc_le : ∀ (l : List (String × String)) (k c : String),
    sumSizes (setAssoc l k c) ≤ sumSizes l + c.utf8ByteSize
  | [], k, c => by simp [setAssoc, sumSizes]
  | (a, b) :: t, k, c => by
    by_cases h : a = k
    · simp only [setAssoc, if_pos h, sumSizes]
      omega
    · simp only [setAssoc, if_neg h, sumSizes]
      have := sumSizes_setAssoc_le t k c
      omega

/-! ## Basic facts about the FS operations -/

theorem VFS.mkdirTree_ok {v v' : VFS} {p : String} (h : v.mkdirTree p = .ok v') :
    v'.files = v.files ∧ v'.dirs = prefixPaths (stripSlash p) ++ v.dirs := by
  unfold VFS.mkdirTree at h
  split at h
  · cases h
    exact ⟨rfl, rfl⟩
  · cases h

theorem VFS.mkdirTree_ok_of {v : VFS} {p : String}
    (h : ∀ q ∈ prefixPaths (stripSlash p), getAssoc v.files q = none) :
    v.mkdirTree p = .ok { v with dirs := prefixPaths (stripSlash p) ++ v.dirs } := by
  unfold VFS.mkdirTree
  rw [if_pos h]

theorem VFS.writeFile_ok {v v' : VFS} {p c : String} (h : v.writeFile p c = .ok v') :
    v'.dirs = v.dirs ∧ v'.files = setAssoc v.files (stripSlash p) c := by
  unfold VFS.writeFile at h
  split at h
  · cases h
  · split at h
    · cases h
      exact ⟨rfl, rfl⟩
    · cases h

theorem VFS.writeFile_ok_of {v : VFS} {p c : String}
    (h1 : stripSlash p ∉ v.dirs) (h2 : posixDirname (stripSlash p) ∈ v.dirs) :
    v.writeFile p c = .ok { v with files := setAssoc v.files (stripSlash p) c } := by
  unfold VFS.writeFile
  rw [if_neg h1, if_pos h2]

theorem VFS.stat_file_of {v : VFS} {p c : String}
    (h : getAssoc v.files (stripSlash p) = some c) :
    v.stat p = some (.file c.utf8ByteSize) := by
  unfold VFS.stat
  rw [h]

theorem HFS.mkdirRec_ok {h h' : HFS} {p : String} (e : h.mkdirRec p = .ok h') :
    h'.files = h.files ∧ h'.dirs = prefixPaths (stripSlash p) ++ h.dirs := by
  unfold HFS.mkdirRec at e
  split at e
  · cases e
    exact ⟨rfl, rfl⟩
  · cases e

theorem HFS.mkdirRec_ok_of {h : HFS} {p : String}
    (hp : ∀ q ∈ prefixPaths (stripSlash p), getAssoc h.files q = none) :
    h.mkdirRec p = .ok { h with dirs := prefixPaths (stripSlash p) ++ h.dirs } := by
  unfold HFS.mkdirRec
  rw [if_pos hp]

theorem HFS.host_writeFile_ok {h h' : HFS} {p c : String} (e : h.writeFile p c = .ok h') :
    h'.dirs = h.dirs ∧ h'.files = setAssoc h.files (stripSlash p) c := by
  unfold HFS.writeFile at e
  split at e
  · cases e
  · cases e
    exact ⟨rfl, rfl⟩

theorem HFS.host_writeFile_ok_of {h : HFS} {p c : String} (hp : stripSlash p ∉ h.dirs) :
    h.writeFile p c = .ok { h with files := setAssoc h.files (stripSlash p) c } := by
  unfold HFS.writeFile
  rw [if_neg hp]

theorem HFS.host_stat_file_of {h : HFS} {p c : String}
    (e : getAssoc h.files (stripSlash p) = some c) :
    h.stat p = some (.file c.utf8ByteSize) := by
  unfold HFS.stat
  rw [e]

/-! ## Claim C1 — concurrent writes and the workspace cap -/

/-- Claim C1 (divergence witness): `write_file` runs its workspace-size
check and its write without acquiring the `AsyncLock`, so an interleaving
of two concurrent calls, each within `MAX_FILE_SIZE`, in which both calls
measure the (empty) workspace before either commits, lets both succeed and
leaves the measured workspace at 120 bytes, above the 100-byte
`MAX_WORKSPACE_SIZE` — no call reports `WorkspaceFull`. This refutes the
claim that the check and write are executed under a process-wide mutex
making every interleaving respect the cap. -/
theorem concurrent_writes_exceed_cap :
    (∀ op ∈ [WriteOp.mk "a.txt" 60, WriteOp.mk "b.txt" 60],
        op.size ≤ (Config.mk 60 100 5000).maxFileSize) ∧
    (runSched ⟨60, 100, 5000⟩ [⟨"a.txt", 60⟩, ⟨"b.txt", 60⟩] [0, 1, 0, 1]).phases
      = [.done true, .done true] ∧
    raceTotal (runSched ⟨60, 100, 5000⟩ [⟨"a.txt", 60⟩, ⟨"b.txt", 60⟩] [0, 1, 0, 1]).host
      = 120 ∧
    (Config.mk 60 100 5000).maxWorkspaceSize
      < raceTotal (runSched ⟨60, 100, 5000⟩ [⟨"a.txt", 60⟩, ⟨"b.txt", 60⟩] [0, 1, 0, 1]).host := by
  decide

/-! ## Claim C9 — environment-variable parsing -/

/-- Claim C9 (counterexample): an environment variable set to the empty
string does not parse (`parseInt("") = NaN`), yet all three limits fall
back to their defaults with the warning flag `false` — the `!envValue`
early return treats the empty value like an unset variable, contradicting
the claim that every invalid value warns. -/
theorem env_empty_value_no_warning :
    jsParseInt "" = none ∧
    maxFileSizeFromEnv (some "") = (10485760, false) ∧
    maxWorkspaceSizeFromEnv (some "") = (104857600, false) ∧
    timeoutMsFromEnv (some "") = (5000, false) := by
  decide

/-- Claim C9 (amended): for each of the three environment variables, an
unset or empty value yields the default without a warning; a non-empty
value that does not parse or parses non-positive yields the default with a
warning; and a non-empty value parsing to a positive integer is used
without a warning. -/
theorem env_limits_parsing (e : Option String) :
    (e = none ∨ e = some "" →
      maxFileSizeFromEnv e = (10485760, false) ∧
      maxWorkspaceSizeFromEnv e = (104857600, false) ∧
      timeoutMsFromEnv e = (5000, false)) ∧
    (∀ s, e = some s → s ≠ "" →
      ((jsParseInt s = none ∨ ∃ v, jsParseInt s = some v ∧ v ≤ 0) →
        maxFileSizeFromEnv e = (10485760, true) ∧
        maxWorkspaceSizeFromEnv e = (104857600, true) ∧
        timeoutMsFromEnv e = (5000, true)) ∧
      (∀ v, jsParseInt s = some v → 0 < v →
        maxFileSizeFromEnv e = (v.toNat, false) ∧
        maxWorkspaceSizeFromEnv e = (v.toNat, false) ∧
        timeoutMsFromEnv e = (v.toNat, false))) := by
  constructor
  · rintro (rfl | rfl) <;>
      simp [maxFileSizeFromEnv, maxWorkspaceSizeFromEnv, timeoutMsFromEnv,
        parseSizeLimit, parseTimeoutMs]
  · rintro s rfl hne
    constructor
    · rintro (hp | ⟨v, hp, hv⟩)
      · simp [maxFileSizeFromEnv, maxWorkspaceSizeFromEnv, timeoutMsFromEnv,
          parseSizeLimit, parseTimeoutMs, hne, hp]
      · simp [maxFileSizeFromEnv, maxWorkspaceSizeFromEnv, timeoutMsFromEnv,
          parseSizeLimit, parseTimeoutMs, hne, hp, hv]
    · intro v hp hv
      simp [maxFileSizeFromEnv, maxWorkspaceSizeFromEnv, timeoutMsFromEnv,
        parseSizeLimit, parseTimeoutMs, hne, hp, not_le.mpr hv]

/-- Witness for `env_limits_parsing` at concrete inputs. -/
theorem env_limits_parsing_witness :
    maxFileSizeFromEnv (some "42") = (42, false) ∧
    timeoutMsFromEnv none = (5000, false) := by
  refine ⟨?_, ?_⟩
  · exact (((env_limits_parsing (some "42")).2 "42" rfl (by decide)).2 42 (by decide)
      (by decide)).1
  · exact ((env_limits_parsing none).1 (Or.inl rfl)).2.2

/-! ## Claim C7 — NUL bytes and the empty path -/

/-- Claim C7 (counterexample): a path containing a NUL byte and the empty
path both pass `validatePath` — no malformed-path rejection happens at
validation; the empty path is accepted as the workspace root itself. -/
theorem nul_and_empty_paths_validate :
    validatePath "test\x00evil.txt" = .ok "/workspace/test\x00evil.txt" ∧
    validatePath "" = .ok "/workspace/" := by
  decide

/-- Claim C7 (amended): path validation performs no NUL-byte or emptiness
check — the empty path is accepted (normalizing to the workspace root) and
NUL-containing paths are accepted whenever their normalization stays under
`/workspace`; what validation does guarantee, for NUL-containing inputs
like any other, is that every accepted path is confined at or below
`/workspace`. -/
theorem validatePath_accepts_nul_and_empty :
    validatePath "" = .ok (VIRTUAL_WORKSPACE ++ "/") ∧
    validatePath "test\x00evil.txt" = .ok (VIRTUAL_WORKSPACE ++ "/test\x00evil.txt") ∧
    (∀ s v, validatePath s = .ok v →
      v = VIRTUAL_WORKSPACE ∨ strStartsWith v (VIRTUAL_WORKSPACE ++ "/") = true) := by
  refine ⟨by decide, by decide, ?_⟩
  intro s v h
  unfold validatePath at h
  by_cases hguard : ¬ strStartsWith (normalizeInput s) (VIRTUAL_WORKSPACE ++ "/") = true
      ∧ normalizeInput s ≠ VIRTUAL_WORKSPACE
  · rw [if_pos hguard] at h
    cases h
  · rw [if_neg hguard] at h
    by_cases hd : hasDotDot (normalizeInput s) = true
    · rw [if_pos hd] at h
      cases h
    · rw [if_neg hd] at h
      cases h
      rcases not_and_or.mp hguard with hpre | hne
      · exact Or.inr (by simpa using hpre)
      · exact Or.inl (by simpa using hne)

/-- Witness for `validatePath_accepts_nul_and_empty` at a concrete accepted
path. -/
theorem validatePath_accepts_nul_and_empty_witness :
    "/workspace/a" = VIRTUAL_WORKSPACE ∨
    strStartsWith "/workspace/a" (VIRTUAL_WORKSPACE ++ "/") = true :=
  validatePath_accepts_nul_and_empty.2.2 "a" "/workspace/a" (by decide)

/-! ## Claim C4 — the path-traversal table -/

theorem writeFileM_validate_error {cfg : Config} {st : MState} {p content : String} {e : MErr}
    (h : validatePath p = .error e) :
    writeFileM cfg st p content = (⟨false, some e⟩, st) := by
  unfold writeFileM
  rw [h]

theorem readFileM_validate_error {st : MState} {p : String} {e : MErr}
    (h : validatePath p = .error e) :
    readFileM st p = (⟨false, none, some e⟩, st) := by
  unfold readFileM
  rw [h]

theorem listFilesM_validate_error {st : MState} {p : String} {e : MErr}
    (hne : p ≠ "") (h : validatePath p = .error e) :
    listFilesM st p = (⟨false, [], some e⟩, st) := by
  unfold listFilesM
  rw [if_neg hne, h]

theorem deleteFileM_validate_error {st : MState} {p : String} {e : MErr}
    (h : validatePath p = .error e) :
    deleteFileM st p = (⟨false, some e⟩, st) := by
  unfold deleteFileM
  rw [h]

/-- Claim C4: each of the five traversal inputs normalizes outside
`/workspace`, so `validatePath` rejects it with the traversal error and
every file tool returns `success = false` leaving both filesystems
untouched — no host file outside the workspace is created or read. -/
theorem traversal_inputs_rejected (cfg : Config) (st : MState) (content p : String)
    (hp : p ∈ ["../etc/passwd", "a/../../b", "/etc/passwd", "..", "/workspace/../etc"]) :
    validatePath p = .error .pathTraversal ∧
    writeFileM cfg st p content = (⟨false, some .pathTraversal⟩, st) ∧
    readFileM st p = (⟨false, none, some .pathTraversal⟩, st) ∧
    listFilesM st p = (⟨false, [], some .pathTraversal⟩, st) ∧
    deleteFileM st p = (⟨false, some .pathTraversal⟩, st) := by
  simp only [List.mem_cons, List.not_mem_nil, or_false] at hp
  rcases hp with rfl | rfl | rfl | rfl | rfl <;>
    exact
      have hval : validatePath _ = .error .pathTraversal := by decide
      ⟨hval, writeFileM_validate_error hval, readFileM_validate_error hval,
        listFilesM_validate_error (by decide) hval, deleteFileM_validate_error hval⟩

/-- Witness for `traversal_inputs_rejected` at `"/etc/passwd"`. -/
theorem traversal_inputs_rejected_witness :
    validatePath "/etc/passwd" = .error .pathTraversal ∧
    writeFileM defaultConfig MState.init "/etc/passwd" "x"
      = (⟨false, some .pathTraversal⟩, MState.init) ∧
    readFileM MState.init "/etc/passwd" = (⟨false, none, some .pathTraversal⟩, MState.init) ∧
    listFilesM MState.init "/etc/passwd" = (⟨false, [], some .pathTraversal⟩, MState.init) ∧
    deleteFileM MState.init "/etc/passwd" = (⟨false, some .pathTraversal⟩, MState.init) :=
  traversal_inputs_rejected defaultConfig MState.init "x" "/etc/passwd" (by decide)

/-! ## Claim C2 — the execution timeout -/

theorem strData_append (a b : String) : (a ++ b).data = a.data ++ b.data := by
  cases a
  cases b
  rfl

/-- Claim C2: when the timer is the first event to fire (the worker
delivered nothing within `PYTHON_EXECUTION_TIMEOUT_MS`, which must be
positive for the timer to be armed), `executeCode` resolves with
`success = false` and an error containing "timed out" and the timeout
value, terminates the worker and marks it absent; a subsequent call on
benign input spawns a fresh worker and succeeds. -/
theorem execute_timeout_recovery (cfg : Config) (st : SupState) (code benign : String)
    (pkgs : List String) (_hpos : 0 < cfg.timeoutMs) :
    (executeCodeS cfg st code pkgs .timerFires).res.success = false ∧
    (∃ e, (executeCodeS cfg st code pkgs .timerFires).res.error = some e ∧
      "timed out".data <:+: e.data ∧ (toString cfg.timeoutMs).data <:+: e.data) ∧
    (executeCodeS cfg st code pkgs .timerFires).state = ⟨false, false⟩ ∧
    (executeCodeS cfg (executeCodeS cfg st code pkgs .timerFires).state benign pkgs
      (.workerResult true "2" "" none none)).spawnedFreshWorker = true ∧
    (executeCodeS cfg (executeCodeS cfg st code pkgs .timerFires).state benign pkgs
      (.workerResult true "2" "" none none)).res.success = true := by
  have hdata : (timeoutErrorMsg cfg.timeoutMs).data
      = "Execution timed out after ".data ++ ((toString cfg.timeoutMs).data ++ "ms".data) := by
    simp [timeoutErrorMsg, strData_append, List.append_assoc]
  refine ⟨rfl, ⟨timeoutErrorMsg cfg.timeoutMs, rfl, ?_, ?_⟩, rfl, rfl, rfl⟩
  · refine ⟨"Execution ".data,
      " after ".data ++ ((toString cfg.timeoutMs).data ++ "ms".data), ?_⟩
    rw [hdata]
    have hlit : "Execution timed out after ".data
        = ("Execution ".data ++ "timed out".data) ++ " after ".data := rfl
    rw [hlit]
    simp [List.append_assoc]
  · refine ⟨"Execution timed out after ".data, "ms".data, ?_⟩
    rw [hdata]
    simp [List.append_assoc]

/-- Witness for `execute_timeout_recovery` with the spec's 2000 ms
scenario. -/
theorem execute_timeout_recovery_witness :
    (executeCodeS ⟨10485760, 104857600, 2000⟩ ⟨true, true⟩ "while True: pass" []
        .timerFires).res.success = false ∧
    (∃ e, (executeCodeS ⟨10485760, 104857600, 2000⟩ ⟨true, true⟩ "while True: pass" []
        .timerFires).res.error = some e ∧
      "timed out".data <:+: e.data ∧ (toString (2000 : Nat)).data <:+: e.data) ∧
    (executeCodeS ⟨10485760, 104857600, 2000⟩ ⟨true, true⟩ "while True: pass" []
        .timerFires).state = ⟨false, false⟩ ∧
    (executeCodeS ⟨10485760, 104857600, 2000⟩
      (executeCodeS ⟨10485760, 104857600, 2000⟩ ⟨true, true⟩ "while True: pass" []
        .timerFires).state "print(1+1)" []
      (.workerResult true "2" "" none none)).spawnedFreshWorker = true ∧
    (executeCodeS ⟨10485760, 104857600, 2000⟩
      (executeCodeS ⟨10485760, 104857600, 2000⟩ ⟨true, true⟩ "while True: pass" []
        .timerFires).state "print(1+1)" []
      (.workerResult true "2" "" none none)).res.success = true :=
  execute_timeout_recovery ⟨10485760, 104857600, 2000⟩ ⟨true, true⟩ "while True: pass"
    "print(1+1)" [] (by decide)

/-! ## Claim C5 — symlink-target confinement -/

/-- Claim C5: whenever the symlink target — taken verbatim when absolute,
resolved against the link's parent directory when relative, and
realpath-resolved when it exists — lies outside the resolved workspace
root, `SecureFs.symlink` fails with `SymlinkSecurityError` before reaching
the backing filesystem (so no link is created), even when the link path
itself validates inside the workspace. -/
theorem symlink_escaping_target_rejected (sfs : SFS) (rp : String → Option String)
    (target linkPath : String)
    (hlink : validatePathS sfs rp linkPath = .ok ())
    (hesc : sfs.isWithinWorkspace (resolvedSymlinkTarget sfs rp target linkPath) = false) :
    symlinkS sfs rp target linkPath = .error .symlinkSecurity := by
  unfold symlinkS
  rw [hlink]
  unfold validateSymlinkTarget
  unfold resolvedSymlinkTarget at hesc
  by_cases hin : sfs.isWithinWorkspace (absoluteSymlinkTarget sfs target linkPath) = true
  · cases hrp : rp (absoluteSymlinkTarget sfs target linkPath) with
    | none => simp_all
    | some r => simp_all
  · simp_all

/-- Witness for `symlink_escaping_target_rejected`: the
`ln -s /etc/passwd leak` scenario on a fresh workspace. -/
theorem symlink_escaping_target_rejected_witness :
    symlinkS ⟨"/ws", "/ws"⟩ (fun _ => none) "/etc/passwd" "/leak" = .error .symlinkSecurity :=
  symlink_escaping_target_rejected ⟨"/ws", "/ws"⟩ (fun _ => none) "/etc/passwd" "/leak"
    (by decide) (by decide)

/-! ## Claim C3 — sequential size enforcement -/

/-- Claim C3: on a validated path, a content whose UTF-8 byte length
exceeds `MAX_FILE_SIZE` fails with the file-too-large error and leaves the
state untouched; a content that fits but would push the measured workspace
size over `MAX_WORKSPACE_SIZE` fails with the workspace-size error and
leaves the state untouched; and every `write_file` call that returns
success leaves the measured workspace size at or below
`MAX_WORKSPACE_SIZE`. -/
theorem writeFile_size_enforcement (cfg : Config) (st : MState) (p c : String) :
    (∀ vp, validatePath p = .ok vp →
      (cfg.maxFileSize < c.utf8ByteSize →
        writeFileM cfg st p c = (⟨false, some .fileTooLarge⟩, st)) ∧
      (c.utf8ByteSize ≤ cfg.maxFileSize →
        cfg.maxWorkspaceSize < workspaceSize st.h + c.utf8ByteSize →
        writeFileM cfg st p c = (⟨false, some .workspaceFull⟩, st))) ∧
    (∀ r st', writeFileM cfg st p c = (r, st') → r.success = true →
      workspaceSize st'.h ≤ cfg.maxWorkspaceSize) := by
  constructor
  · intro vp hval
    constructor
    · intro hbig
      unfold writeFileM
      rw [hval]
      dsimp only
      rw [if_pos hbig]
    · intro hfits hfull
      unfold writeFileM
      rw [hval]
      dsimp only
      rw [if_neg (by omega), if_pos hfull]
  · intro r st' hw hs
    unfold writeFileM at hw
    cases hval : validatePath p with
    | error e =>
      rw [hval] at hw
      dsimp only at hw
      cases hw
      cases hs
    | ok vp =>
      rw [hval] at hw
      dsimp only at hw
      by_cases hbig : cfg.maxFileSize < c.utf8ByteSize
      · rw [if_pos hbig] at hw
        cases hw
        cases hs
      · rw [if_neg hbig] at hw
        by_cases hfull : cfg.maxWorkspaceSize < workspaceSize st.h + c.utf8ByteSize
        · rw [if_pos hfull] at hw
          cases hw
          cases hs
        · rw [if_neg hfull] at hw
          cases hmk :
            (if posixDirname vp ≠ "" ∧ posixDirname vp ≠ "/"
                ∧ hasDotDot (posixDirname vp) = false then
              st.v.mkdirTree (posixDirname vp)
            else .ok st.v) with
          | error e =>
            rw [hmk] at hw
            dsimp only at hw
            cases hw
            cases hs
          | ok v1 =>
            rw [hmk] at hw
            dsimp only at hw
            cases hwr : v1.writeFile vp c with
            | error e =>
              rw [hwr] at hw
              dsimp only at hw
              cases hw
              cases hs
            | ok v2 =>
              rw [hwr] at hw
              dsimp only at hw
              have hv2files : v2.files = setAssoc v1.files (stripSlash vp) c :=
                (VFS.writeFile_ok hwr).2
              have hv1files : v1.files = st.v.files := by
                by_cases hguard : posixDirname vp ≠ "" ∧ posixDirname vp ≠ "/"
                    ∧ hasDotDot (posixDirname vp) = false
                · rw [if_pos hguard] at hmk
                  exact (VFS.mkdirTree_ok hmk).1
                · rw [if_neg hguard] at hmk
                  cases hmk
                  rfl
              cases hsync : syncVirtualPathToHostM { st with v := v2 } vp
                  (virtualToHostPath vp) with
              | error e =>
                rw [hsync] at hw
                dsimp only at hw
                cases hw
                cases hs
              | ok st2 =>
                rw [hsync] at hw
                dsimp only at hw
                cases hw
                -- the sync took the single-file branch: compute its effect
                have hget : getAssoc v2.files (stripSlash vp) = some c := by
                  rw [hv2files]
                  exact getAssoc_setAssoc_self _ _ _
                have hstat : v2.stat vp = some (.file c.utf8ByteSize) :=
                  VFS.stat_file_of hget
                unfold syncVirtualPathToHostM at hsync
                dsimp only at hsync
                rw [hstat] at hsync
                dsimp only at hsync
                cases hmkr : st.h.mkdirRec (posixDirname (virtualToHostPath vp)) with
                | error e =>
                  rw [hmkr] at hsync
                  dsimp only at hsync
                  cases hsync
                | ok h1 =>
                  rw [hmkr] at hsync
                  dsimp only at hsync
                  rw [hget] at hsync
                  dsimp only at hsync
                  cases hhw : h1.writeFile (virtualToHostPath vp) c with
                  | error e =>
                    rw [hhw] at hsync
                    dsimp only at hsync
                    cases hsync
                  | ok h2 =>
                    rw [hhw] at hsync
                    dsimp only at hsync
                    cases hsync
                    have hh1 : h1.files = st.h.files := (HFS.mkdirRec_ok hmkr).1
                    have hh2 : h2.files
                        = setAssoc h1.files (stripSlash (virtualToHostPath vp)) c :=
                      (HFS.host_writeFile_ok hhw).2
                    have hb := sumSizes_setAssoc_le h1.files
                      (stripSlash (virtualToHostPath vp)) c
                    simp only [workspaceSize] at *
                    rw [hh2, hh1]
                    rw [hh1] at hb
                    omega

/-- Witness for `writeFile_size_enforcement`: a 2-byte write against a
1-byte `MAX_FILE_SIZE` fails with the file-too-large error. -/
theorem writeFile_size_enforcement_witness :
    writeFileM ⟨1, 100, 5000⟩ MState.init "foo.txt" "hi"
      = (⟨false, some .fileTooLarge⟩, MState.init) :=
  ((writeFile_size_enforcement ⟨1, 100, 5000⟩ MState.init "foo.txt" "hi").1
    "/workspace/foo.txt" (by decide)).1 (by decide)

/-! ## Claim C10 — deleting a non-empty directory -/

/-- Claim C10: on a validated path naming a non-empty directory of the
virtual filesystem (with the corresponding host directory present and no
host entries beneath it to sync), `delete_file` fails — the virtual
`rmdir` throws `ENOTEMPTY` — and the state is returned unchanged: the
virtual directory is still listed, and the host directory was never
touched because the host-deletion code sits after the throwing `rmdir`. -/
theorem delete_nonempty_dir_fails (st : MState) (p vp : String)
    (hval : validatePath p = .ok vp)
    (hdir : stripSlash vp ∈ st.v.dirs)
    (hnotfile : getAssoc st.v.files (stripSlash vp) = none)
    (hnonempty : (∃ d ∈ st.v.dirs, isUnder (stripSlash vp) d = true)
      ∨ (∃ kv ∈ st.v.files, isUnder (stripSlash vp) kv.1 = true))
    (hhostfile : getAssoc st.h.files (stripSlash (virtualToHostPath vp)) = none)
    (hhostdir : stripSlash (virtualToHostPath vp) ∈ st.h.dirs)
    (hhostnodirs : st.h.dirs.filter
      (fun d => isUnder (stripSlash (virtualToHostPath vp)) d) = [])
    (hhostnofiles : st.h.files.filter
      (fun kv => isUnder (stripSlash (virtualToHostPath vp)) kv.1) = [])
    (hinws : strStartsWith (posixNormalize (virtualToHostPath vp))
      (posixNormalize WORKSPACE_DIR) = true) :
    deleteFileM st p = (⟨false, some .enotempty⟩, st) := by
  have hhstat : st.h.stat (virtualToHostPath vp) = some .dir := by
    unfold HFS.stat
    rw [hhostfile, if_pos hhostdir]
  have hsync : syncHostPathToVirtualM st (virtualToHostPath vp) vp = .ok st := by
    unfold syncHostPathToVirtualM
    rw [hhstat, hhostnofiles, hhostnodirs]
    rfl
  have hvstat : st.v.stat vp = some .dir := by
    unfold VFS.stat
    rw [hnotfile, if_pos hdir]
  have hrm : st.v.rmdir vp = .error .enotempty := by
    unfold VFS.rmdir
    rw [if_pos hdir, if_pos hnonempty]
  unfold deleteFileM
  rw [hval]
  dsimp only
  rw [hsync]
  dsimp only
  rw [if_neg (by simp [hinws])]
  rw [hvstat]
  dsimp only
  rw [hrm]

/-- Witness for `delete_nonempty_dir_fails`: deleting `d` while
`/workspace/d/f.txt` exists in the virtual FS. -/
theorem delete_nonempty_dir_fails_witness :
    deleteFileM
      ⟨⟨["/", "/workspace", "/workspace/d"], [("/workspace/d/f.txt", "x")]⟩,
        ⟨[WORKSPACE_DIR, WORKSPACE_DIR ++ "/d"], []⟩⟩ "d"
      = (⟨false, some .enotempty⟩,
        ⟨⟨["/", "/workspace", "/workspace/d"], [("/workspace/d/f.txt", "x")]⟩,
          ⟨[WORKSPACE_DIR, WORKSPACE_DIR ++ "/d"], []⟩⟩) :=
  delete_nonempty_dir_fails
    ⟨⟨["/", "/workspace", "/workspace/d"], [("/workspace/d/f.txt", "x")]⟩,
      ⟨[WORKSPACE_DIR, WORKSPACE_DIR ++ "/d"], []⟩⟩ "d" "/workspace/d"
    (by decide) (by decide) (by decide)
    (Or.inr ⟨("/workspace/d/f.txt", "x"), by decide, by decide⟩)
    (by decide) (by decide) (by decide) (by decide) (by decide)

/-! ## Claim C8 — write/read round-trip -/

/-- `FS.mkdirTree` under the sync code's swallow-errors wrapper, when it in
fact succeeds. -/
theorem VFS.mkdirTreeQuiet_of {v : VFS} {p : String}
    (h : ∀ q ∈ prefixPaths (stripSlash p), getAssoc v.files q = none) :
    v.mkdirTreeQuiet p = { v with dirs := prefixPaths (stripSlash p) ++ v.dirs } := by
  unfold VFS.mkdirTreeQuiet
  rw [VFS.mkdirTree_ok_of h]

/-- Claim C8 (counterexample): the empty path is accepted by validation
(claim C8 quantifies over every accepted path), `"x"` is one byte, and the
write fits every default limit, yet `write_file("", "x")` fails — the
validated path is the workspace root directory itself, so the virtual
`FS.writeFile` raises `EISDIR` — refuting the claim that every accepted
path with a fitting content round-trips. -/
theorem write_at_root_path_fails :
    validatePath "" = .ok "/workspace/" ∧
    "x".utf8ByteSize ≤ defaultConfig.maxFileSize ∧
    workspaceSize MState.init.h + "x".utf8ByteSize ≤ defaultConfig.maxWorkspaceSize ∧
    (writeFileM defaultConfig MState.init "" "x").1
      = ⟨false, some .eisdir⟩ := by
  decide

/-- Claim C8 (amended): `write_file(p, c)` followed by `read_file(p)`
returns `c` for every accepted path that denotes a proper file location:
its normalized form is a strict descendant of `/workspace` without a
trailing separator, no existing directory occupies it (virtually or on the
host), no existing file occupies one of its parent directories, the
content fits `MAX_FILE_SIZE`, and the write fits `MAX_WORKSPACE_SIZE`. -/
theorem write_then_read_roundtrip (cfg : Config) (st : MState) (p c vp : String)
    (hval : validatePath p = .ok vp)
    (hns : stripSlash vp = vp)
    (hpd : posixDirname vp ≠ "" ∧ posixDirname vp ≠ "/"
      ∧ hasDotDot (posixDirname vp) = false)
    (hpdns : stripSlash (posixDirname vp) = posixDirname vp)
    (hpmem : posixDirname vp ∈ prefixPaths (posixDirname vp))
    (hnotpfx : vp ∉ prefixPaths (posixDirname vp))
    (hvdirs : vp ∉ st.v.dirs)
    (hvfiles : ∀ q ∈ prefixPaths (posixDirname vp), getAssoc st.v.files q = none)
    (hhns : stripSlash (virtualToHostPath vp) = virtualToHostPath vp)
    (hhpdns : stripSlash (posixDirname (virtualToHostPath vp))
      = posixDirname (virtualToHostPath vp))
    (hhdirs : virtualToHostPath vp ∉ st.h.dirs)
    (hhnotpfx : virtualToHostPath vp ∉ prefixPaths (posixDirname (virtualToHostPath vp)))
    (hhfiles : ∀ q ∈ prefixPaths (posixDirname (virtualToHostPath vp)),
      getAssoc st.h.files q = none)
    (hsize1 : c.utf8ByteSize ≤ cfg.maxFileSize)
    (hsize2 : workspaceSize st.h + c.utf8ByteSize ≤ cfg.maxWorkspaceSize) :
    ∃ st', writeFileM cfg st p c = (⟨true, none⟩, st')
      ∧ (readFileM st' p).1 = ⟨true, some c, none⟩ := by
  -- names for the successive filesystem states
  set v1 : VFS := ⟨prefixPaths (posixDirname vp) ++ st.v.dirs, st.v.files⟩ with hv1
  set v2 : VFS := ⟨prefixPaths (posixDirname vp) ++ st.v.dirs, setAssoc st.v.files vp c⟩
    with hv2
  set h1 : HFS :=
    ⟨prefixPaths (posixDirname (virtualToHostPath vp)) ++ st.h.dirs, st.h.files⟩ with hh1
  set h2 : HFS :=
    ⟨prefixPaths (posixDirname (virtualToHostPath vp)) ++ st.h.dirs,
      setAssoc st.h.files (virtualToHostPath vp) c⟩ with hh2
  -- the parent mkdirTree succeeds
  have hmk : st.v.mkdirTree (posixDirname vp) = .ok v1 := by
    have hpre : ∀ q ∈ prefixPaths (stripSlash (posixDirname vp)),
        getAssoc st.v.files q = none := by
      rw [hpdns]
      exact hvfiles
    have := VFS.mkdirTree_ok_of hpre
    rw [hpdns] at this
    exact this
  -- the virtual write succeeds
  have hvnotin : stripSlash vp ∉ v1.dirs := by
    rw [hns, hv1]
    simp only [List.mem_append]
    rintro (h | h)
    · exact hnotpfx h
    · exact hvdirs h
  have hvparent : posixDirname (stripSlash vp) ∈ v1.dirs := by
    rw [hns, hv1]
    exact List.mem_append_left _ hpmem
  have hwv : v1.writeFile vp c = .ok v2 := by
    have := VFS.writeFile_ok_of (c := c) hvnotin hvparent
    rw [hns] at this
    exact this
  -- the host-directory creation succeeds
  have hmkh : st.h.mkdirRec (posixDirname (virtualToHostPath vp)) = .ok h1 := by
    have hpre : ∀ q ∈ prefixPaths (stripSlash (posixDirname (virtualToHostPath vp))),
        getAssoc st.h.files q = none := by
      rw [hhpdns]
      exact hhfiles
    have := HFS.mkdirRec_ok_of hpre
    rw [hhpdns] at this
    exact this
  -- the host write succeeds
  have hhnotin : stripSlash (virtualToHostPath vp) ∉ h1.dirs := by
    rw [hhns, hh1]
    simp only [List.mem_append]
    rintro (h | h)
    · exact hhnotpfx h
    · exact hhdirs h
  have hwh : h1.writeFile (virtualToHostPath vp) c = .ok h2 := by
    have := HFS.host_writeFile_ok_of (c := c) hhnotin
    rw [hhns] at this
    exact this
  -- the write-side sync
  have hstat2 : v2.stat vp = some (.file c.utf8ByteSize) := by
    apply VFS.stat_file_of
    rw [hns, hv2]
    exact getAssoc_setAssoc_self _ _ _
  have hget2 : getAssoc v2.files (stripSlash vp) = some c := by
    rw [hns, hv2]
    exact getAssoc_setAssoc_self _ _ _
  have hsyncw : syncVirtualPathToHostM ⟨v2, st.h⟩ vp (virtualToHostPath vp)
      = .ok ⟨v2, h2⟩ := by
    unfold syncVirtualPathToHostM
    dsimp only
    rw [hstat2]
    dsimp only
    rw [hmkh]
    dsimp only
    rw [hget2]
    dsimp only
    rw [hwh]
  -- write_file succeeds
  refine ⟨⟨v2, h2⟩, ?_, ?_⟩
  · unfold writeFileM
    rw [hval]
    dsimp only
    rw [if_neg (by omega), if_neg (by omega), if_pos hpd, hmk]
    dsimp only
    rw [hwv]
    dsimp only
    rw [hsyncw]
  -- read_file returns the content
  · have hhget : getAssoc h2.files (stripSlash (virtualToHostPath vp)) = some c := by
      rw [hhns, hh2]
      exact getAssoc_setAssoc_self _ _ _
    have hhstat : HFS.stat h2 (virtualToHostPath vp) = some (.file c.utf8ByteSize) :=
      HFS.host_stat_file_of hhget
    have hquiet : v2.mkdirTreeQuiet (posixDirname vp)
        = ⟨prefixPaths (posixDirname vp) ++ v2.dirs, v2.files⟩ := by
      have hpre : ∀ q ∈ prefixPaths (stripSlash (posixDirname vp)),
          getAssoc v2.files q = none := by
        rw [hpdns]
        intro q hq
        rw [hv2]
        dsimp only
        rw [getAssoc_setAssoc_ne st.v.files vp c q (fun he => hnotpfx (he ▸ hq))]
        exact hvfiles q hq
      have := VFS.mkdirTreeQuiet_of hpre
      rw [hpdns] at this
      exact this
    have hwv2 : VFS.writeFile ⟨prefixPaths (posixDirname vp) ++ v2.dirs, v2.files⟩ vp c
        = .ok ⟨prefixPaths (posixDirname vp) ++ v2.dirs, setAssoc v2.files vp c⟩ := by
      have hnot : stripSlash vp
          ∉ (⟨prefixPaths (posixDirname vp) ++ v2.dirs, v2.files⟩ : VFS).dirs := by
        rw [hns]
        simp only [List.mem_append, hv2]
        rintro (h | h | h)
        · exact hnotpfx h
        · exact hnotpfx h
        · exact hvdirs h
      have hpar : posixDirname (stripSlash vp)
          ∈ (⟨prefixPaths (posixDirname vp) ++ v2.dirs, v2.files⟩ : VFS).dirs := by
        rw [hns]
        exact List.mem_append_left _ hpmem
      have := VFS.writeFile_ok_of (c := c) hnot hpar
      rw [hns] at this
      exact this
    have hsyncr : syncHostPathToVirtualM ⟨v2, h2⟩ (virtualToHostPath vp) vp
        = .ok ⟨⟨prefixPaths (posixDirname vp) ++ v2.dirs, setAssoc v2.files vp c⟩, h2⟩ := by
      unfold syncHostPathToVirtualM
      dsimp only
      rw [hhstat]
      dsimp only
      rw [hhget]
      dsimp only
      rw [if_pos hpd, hquiet, hwv2]
    unfold readFileM
    rw [hval]
    dsimp only
    rw [hsyncr]
    dsimp only
    have hread : VFS.readFile
        ⟨prefixPaths (posixDirname vp) ++ v2.dirs, setAssoc v2.files vp c⟩ vp = .ok c := by
      unfold VFS.readFile
      rw [hns, getAssoc_setAssoc_self]
    rw [hread]

/-- Witness for `write_then_read_roundtrip`: `foo.txt` with content `hi`
in a fresh workspace. -/
theorem write_then_read_roundtrip_witness :
    ∃ st', writeFileM defaultConfig MState.init "foo.txt" "hi" = (⟨true, none⟩, st')
      ∧ (readFileM st' "foo.txt").1 = ⟨true, some "hi", none⟩ :=
  write_then_read_roundtrip defaultConfig MState.init "foo.txt" "hi" "/workspace/foo.txt"
    (by decide) (by decide) (by decide) (by decide) (by decide) (by decide) (by decide)
    (by decide) (by decide) (by decide) (by decide) (by decide) (by decide) (by decide)
    (by decide)

/-! ## Claim C6 — sync-to-host after every execution -/

theorem wGet_wSet_self : ∀ (l : List (List String × String)) (k : List String) (c : String),
    wGet (wSet l k c) k = some c
  | [], k, c => by simp [wSet, wGet]
  | (a, b) :: t, k, c => by
    by_cases h : a = k
    · simp [wSet, wGet, h]
    · simp [wSet, wGet, h, wGet_wSet_self t k c]

theorem wGet_wSet_ne : ∀ (l : List (List String × String)) (k : List String) (c : String)
    (k' : List String), k' ≠ k → wGet (wSet l k c) k' = wGet l k'
  | [], k, c, k', hk => by
    have hne : ¬ k = k' := fun hkk => hk (Eq.symm hkk)
    simp only [wSet, wGet, if_neg hne]
  | (a, b) :: t, k, c, k', hk => by
    by_cases h : a = k
    · subst h
      have hne : ¬ a = k' := fun hak => hk (Eq.symm hak)
      simp only [wSet, if_pos rfl, wGet, if_neg hne]
    · simp only [wSet, if_neg h, wGet]
      by_cases h' : a = k'
      · simp only [if_pos h']
      · simp only [if_neg h', wGet_wSet_ne t k c k' hk]

theorem WHost.mkdirRec_ok_files {h h' : WHost} {k : List String}
    (e : h.mkdirRec k = .ok h') : h'.files = h.files := by
  unfold WHost.mkdirRec at e
  split at e
  · cases e
    rfl
  · cases e

theorem WHost.writeFile_ok_files {h h' : WHost} {k : List String} {c : String}
    (e : h.writeFile k c = .ok h') : h'.files = wSet h.files k c := by
  unfold WHost.writeFile at e
  split at e
  · cases e
  · cases e
    rfl

mutual
/-- The worker sync never touches host files outside the subtree it was
asked to write. -/
theorem syncNode_outside (okPath : List String → Bool) :
    ∀ (node : VNode) (base : List String) (h h' : WHost),
      syncNodeToHost okPath node base h = .ok h' →
      ∀ k, ¬ (base <+: k) → wGet h'.files k = wGet h.files k
  | .file c, base, h, h', e, k, hk => by
    unfold syncNodeToHost at e
    split at e
    · split at e
      · cases e
      · rename_i h1 hmk
        have hne : k ≠ base := fun hkb => hk (hkb ▸ List.prefix_refl base)
        rw [WHost.writeFile_ok_files e, wGet_wSet_ne h1.files base c k hne,
          WHost.mkdirRec_ok_files hmk]
    · cases e
  | .dir es, base, h, h', e, k, hk => by
    unfold syncNodeToHost at e
    split at e
    · split at e
      · cases e
      · rename_i h1 hmk
        have hcond : ∀ m ∈ es.names, ¬ ((base ++ [m]) <+: k) := by
          intro m _ hpre
          exact hk (List.IsPrefix.trans (List.prefix_append base [m]) hpre)
        rw [syncEntries_outside okPath es base h1 h' e k hcond,
          WHost.mkdirRec_ok_files hmk]
    · cases e

/-- Entry-by-entry version of `syncNode_outside`. -/
theorem syncEntries_outside (okPath : List String → Bool) :
    ∀ (es : VEntries) (base : List String) (h h' : WHost),
      syncEntriesToHost okPath es base h = .ok h' →
      ∀ k, (∀ m ∈ es.names, ¬ ((base ++ [m]) <+: k)) → wGet h'.files k = wGet h.files k
  | .nil, base, h, h', e, k, _ => by
    cases e
    rfl
  | .cons name node rest, base, h, h', e, k, hk => by
    unfold syncEntriesToHost at e
    split at e
    · cases e
    · rename_i h1 hstep
      have hk1 : ¬ ((base ++ [name]) <+: k) := hk name (by simp [VEntries.names])
      have hkr : ∀ m ∈ rest.names, ¬ ((base ++ [m]) <+: k) := by
        intro m hm
        exact hk m (by simp [VEntries.names, hm])
      rw [syncEntries_outside okPath rest base h1 h' e k hkr,
        syncNode_outside okPath node (base ++ [name]) h h1 hstep k hk1]
end

mutual
/-- Every file of the virtual tree is visible on the host, at the
corresponding segment path, after a successful worker sync. -/
theorem syncNode_visible (okPath : List String → Bool) :
    ∀ (node : VNode) (base : List String) (h h' : WHost),
      VNode.WF node →
      syncNodeToHost okPath node base h = .ok h' →
      ∀ segs c, node.lookup segs = some c → wGet h'.files (base ++ segs) = some c
  | .file c0, base, h, h', _, e, segs, c, hl => by
    cases segs with
    | cons a rest => simp [VNode.lookup] at hl
    | nil =>
      simp only [VNode.lookup, Option.some.injEq] at hl
      subst hl
      unfold syncNodeToHost at e
      split at e
      · split at e
        · cases e
        · rename_i h1 hmk
          rw [List.append_nil, WHost.writeFile_ok_files e]
          exact wGet_wSet_self h1.files base c0
      · cases e
  | .dir es, base, h, h', wf, e, segs, c, hl => by
    cases segs with
    | nil => simp [VNode.lookup] at hl
    | cons n rest =>
      simp only [VNode.lookup] at hl
      unfold syncNodeToHost at e
      split at e
      · split at e
        · cases e
        · rename_i h1 hmk
          cases wf with
          | dir es hnd hwf =>
            exact syncEntries_visible okPath es base h1 h' hnd hwf e n rest c hl
      · cases e

/-- Entry-by-entry version of `syncNode_visible`. -/
theorem syncEntries_visible (okPath : List String → Bool) :
    ∀ (es : VEntries) (base : List String) (h h' : WHost),
      es.names.Nodup → VEntries.WF es →
      syncEntriesToHost okPath es base h = .ok h' →
      ∀ n segs c, VEntries.lookup es n segs = some c →
        wGet h'.files (base ++ n :: segs) = some c
  | .nil, base, h, h', _, _, e, n, segs, c, hl => by simp [VEntries.lookup] at hl
  | .cons name node rest, base, h, h', hnd, hwf, e, n, segs, c, hl => by
    unfold syncEntriesToHost at e
    split at e
    · cases e
    · rename_i h1 hstep
      cases hwf with
      | cons _ _ _ hwnode hwrest =>
        by_cases hn : name = n
        · subst hn
          simp only [VEntries.lookup, if_pos rfl] at hl
          have hvis := syncNode_visible okPath node (base ++ [name]) h h1 hwnode hstep
            segs c hl
          have hname : name ∉ rest.names := (List.nodup_cons.mp hnd).1
          have hcond : ∀ m ∈ rest.names, ¬ ((base ++ [m]) <+: (base ++ name :: segs)) := by
            intro m hm hpre
            obtain ⟨t, ht⟩ := hpre
            rw [List.append_assoc] at ht
            have hcanc := List.append_cancel_left ht
            rw [List.singleton_append] at hcanc
            injection hcanc with hmn _
            exact hname (hmn ▸ hm)
          rw [syncEntries_outside okPath rest base h1 h' e _ hcond]
          rw [List.append_assoc, List.singleton_append] at hvis
          exact hvis
        · simp only [VEntries.lookup, if_neg hn] at hl
          exact syncEntries_visible okPath rest base h1 h' (List.nodup_cons.mp hnd).2
            hwrest e n segs c hl
end

/-- Claim C6: the worker runs `sync_virtual_to_host` on the whole virtual
workspace in both the success branch and the catch branch, before the
result message is assembled; consequently, whenever the tail of
`executeCode` completes with a result, every file of the virtual workspace
tree is visible on the host at the corresponding path, in the success and
the error outcome alike, and the result fields reflect the outcome. -/
theorem worker_syncs_before_result (okPath : List String → Bool) (vfs : VNode)
    (workDir : List String) (outcome : RunOutcome) (out errOut : String) (h h' : WHost)
    (r : WorkerResult) (hwf : VNode.WF vfs)
    (hrun : workerExecuteTail okPath vfs workDir outcome out errOut h = .ok (r, h')) :
    (∀ segs c, vfs.lookup segs = some c → wGet h'.files (workDir ++ segs) = some c) ∧
    r.success = (match outcome with | .normal _ => true | .raised _ => false) ∧
    r.error = (match outcome with | .normal _ => none | .raised m => some m) ∧
    r.stdout = out ∧ r.stderr = errOut := by
  cases outcome with
  | normal value =>
    unfold workerExecuteTail at hrun
    cases hsync : syncNodeToHost okPath vfs workDir h with
    | error e =>
      rw [hsync] at hrun
      cases hrun
    | ok h2 =>
      rw [hsync] at hrun
      dsimp only at hrun
      cases hrun
      exact ⟨fun segs c hl => syncNode_visible okPath vfs workDir h _ hwf hsync segs c hl,
        rfl, rfl, rfl, rfl⟩
  | raised msg =>
    unfold workerExecuteTail at hrun
    cases hsync : syncNodeToHost okPath vfs workDir h with
    | error e =>
      rw [hsync] at hrun
      cases hrun
    | ok h2 =>
      rw [hsync] at hrun
      dsimp only at hrun
      cases hrun
      exact ⟨fun segs c hl => syncNode_visible okPath vfs workDir h _ hwf hsync segs c hl,
        rfl, rfl, rfl, rfl⟩

/-- Witness for `worker_syncs_before_result`: a raising execution that
wrote `out.txt` before failing still leaves the file on the host. -/
theorem worker_syncs_before_result_witness :
    (∀ segs c,
      (VNode.dir (.cons "out.txt" (.file "data") .nil)).lookup segs = some c →
      wGet [(["app", "workspace", "out.txt"], "data")] (["app", "workspace"] ++ segs)
        = some c) ∧
    (false : Bool) = false ∧
    (some "boom" : Option String) = some "boom" ∧
    "partial output" = "partial output" ∧
    "" = "" := by
  have h := worker_syncs_before_result (fun _ => true)
    (.dir (.cons "out.txt" (.file "data") .nil)) ["app", "workspace"]
    (.raised "boom") "partial output" "" ⟨[], []⟩
    ⟨[(["app", "workspace", "out.txt"], "data")],
      [["app"], ["app", "workspace"], ["app"], ["app", "workspace"]]⟩
    ⟨false, "partial output", "", none, some "boom"⟩
    (VNode.WF.dir _ (by simp [VEntries.names])
      (VEntries.WF.cons _ _ _ (VNode.WF.file _) VEntries.WF.nil))
    (by decide)
  exact h

end Heimdall
